import Mathlib

/-!
The module manager of mq2luna (`src/luna.cpp`).

A shallow embedding of the `Luna` manager: the ordered list of module contexts
(`luna_ctxs_`) and the operations `find_index_of`, `run_module`, `stop_module`,
`pause_module`, `add_bind`, `cleanup_exiting_contexts` and
`list_available_modules`, followed by the properties proved about them.

Calls into the Lua interpreter and the filesystem are not part of `luna.cpp`;
their results are inputs of the operations that consult them.
-/

namespace MQ2Luna

/-! ## Data model -/

/-- Modelled from the spec: the four entry-point handles of a context
(`threads_.main`, `threads_.pulse`, `threads_.event`, `threads_.bind`), declared
in `luna_context.hpp`, which is not among the sources. A handle is a number. -/
structure Threads where
  main : Nat
  pulse : Nat
  event : Nat
  bind : Nat
  deriving DecidableEq, Repr

/-- Modelled from the spec: the class `LunaContext` is declared in
`luna_context.hpp`, which is not among the sources. `luna.cpp` reads the fields
`name`, `paused`, `exiting` and `threads_`; the two binding tables are the
spec's `command_bindings` (a set of command names) and `event_bindings`
(pattern and callback pairs). -/
structure LunaContext where
  name : String
  paused : Bool
  exiting : Bool
  threads_ : Threads
  command_bindings : List String
  event_bindings : List (String × Nat)
  deriving DecidableEq, Repr

/-- Modelled from the spec: `LunaContext::has_command_binding` is defined
outside `luna.cpp`; it queries this context's command-name set. -/
def LunaContext.has_command_binding (ctx : LunaContext) (cmd : String) : Bool :=
  decide (cmd ∈ ctx.command_bindings)

/-- Modelled from the spec: `LunaContext::add_command_binding` is defined
outside `luna.cpp`; it adds the command name to this context's command-name
set and touches nothing else. -/
def LunaContext.add_command_binding (ctx : LunaContext) (cmd : String) : LunaContext :=
  { ctx with
    command_bindings :=
      if cmd ∈ ctx.command_bindings then ctx.command_bindings
      else ctx.command_bindings ++ [cmd] }

/-- The manager `Luna`: the active contexts in `luna_ctxs_`, the two queues of
pending command text and the `debug_` flag. -/
structure Luna where
  luna_ctxs_ : List LunaContext
  todo_luna_cmds_ : List String
  todo_bind_commands_ : List String
  debug_ : Bool
  deriving DecidableEq, Repr

/-- The names of the active contexts, in list order. -/
def Luna.names (m : Luna) : List String := m.luna_ctxs_.map LunaContext.name

/-- A manager with no active context and empty queues. -/
def Luna.empty : Luna :=
  { luna_ctxs_ := [], todo_luna_cmds_ := [], todo_bind_commands_ := [], debug_ := false }

/-! ## `find_index_of` (luna.cpp 283-292) -/

/-- The range-for of `find_index_of`: `idx` is the running `int` counter, the
result is `idx` at the first context whose name equals `ctx_name` and `-1` when
the list is exhausted. (The counter is a signed `int`; it cannot overflow on a
list shorter than `2^31`.) -/
def find_index_of_loop (ctx_name : String) : List LunaContext → Int → Int
  | [], _ => -1
  | ctx :: rest, idx =>
    if ctx.name = ctx_name then idx else find_index_of_loop ctx_name rest (idx + 1)

/-- The method `Luna::find_index_of`: the loop started with `idx = 0`. -/
def Luna.find_index_of (m : Luna) (ctx_name : String) : Int :=
  find_index_of_loop ctx_name m.luna_ctxs_ 0

/-! ## `run_module` (luna.cpp 209-250) -/

/-- What the filesystem and the interpreter answer during one `run_module`
call: the two filesystem checks, the status of `luaL_dofile`, `lua_istable` on
its result, the result of `create_indices`, and the context object `ls` as the
interpreter calls have left it (its name is fixed by the constructor). -/
structure ModuleLoad where
  is_directory : Bool
  is_regular_file : Bool
  dofile_ok : Bool
  istable : Bool
  create_indices : Bool
  ls : LunaContext
  deriving DecidableEq, Repr

/-- The method `Luna::run_module`: returns early when `sv` is already active, when the
module directory or `module.lua` is missing, when the script fails, when its
result is not a table and when `create_indices` fails; otherwise the context,
constructed with name `sv`, is appended to `luna_ctxs_`. -/
def Luna.run_module (m : Luna) (sv : String) (load : ModuleLoad) : Luna :=
  let idx := m.find_index_of sv
  if idx ≠ -1 then m
  else if !load.is_directory then m
  else if !load.is_regular_file then m
  else if !load.dofile_ok then m
  else if !load.istable then m
  else if !load.create_indices then m
  else { m with luna_ctxs_ := m.luna_ctxs_ ++ [{ load.ls with name := sv }] }

/-! ## `stop_module` (luna.cpp 252-265) -/

/-- The method `Luna::stop_module`: `"all"` clears the list; otherwise the context at
`find_index_of sv` is erased, and nothing happens when that is `-1`. -/
def Luna.stop_module (m : Luna) (sv : String) : Luna :=
  if sv = "all" then { m with luna_ctxs_ := [] }
  else
    let idx := m.find_index_of sv
    if idx = -1 then m
    else { m with luna_ctxs_ := m.luna_ctxs_.eraseIdx idx.toNat }

/-! ## `pause_module` (luna.cpp 267-281) -/

/-- The method `Luna::pause_module`: nothing happens when `find_index_of sv` is
`-1`; otherwise the context at that index gets `paused = false` when it was
paused and `paused = true` when it was not. (An index that `find_index_of`
returns is always in range, so the `none` branch is never taken.) -/
def Luna.pause_module (m : Luna) (sv : String) : Luna :=
  let idx := m.find_index_of sv
  if idx = -1 then m
  else
    match m.luna_ctxs_[idx.toNat]? with
    | none => m
    | some ls =>
      if ls.paused then
        { m with luna_ctxs_ := m.luna_ctxs_.set idx.toNat { ls with paused := false } }
      else
        { m with luna_ctxs_ := m.luna_ctxs_.set idx.toNat { ls with paused := true } }

/-! ## `add_bind` (luna.cpp 314-331) -/

/-- The pointer that `zx::get_context(ls)` returns (a function defined outside
`luna.cpp`): null, the context stored at an index of `luna_ctxs_`, or a context
object that `luna_ctxs_` does not hold, such as the one `run_module` has
constructed and not yet appended while `luaL_dofile` runs its script. -/
inductive CtxPtr where
  | null
  | active (idx : Nat)
  | detached (ctx : LunaContext)
  deriving DecidableEq, Repr

/-- How a Lua C function ends: it returns a number of results, or it raises a
Lua error through `luaL_error` with a message. -/
inductive LuaReturn where
  | ret (n : Int)
  | lua_error (msg : String)
  deriving DecidableEq, Repr

/-- The method `Luna::add_bind`. `cmd` is the pointer `luaL_checkstring(ls, 2)` yields
(`none` for null) and `caller` what `zx::get_context(ls)` yields. The loop scans
`luna_ctxs_` and raises the conflict error at the first context that has the
binding; otherwise the caller's context adds it. The result is the outcome of
the call, the manager, and the caller's pointer with the context it points to
when that context is not in `luna_ctxs_`. -/
def Luna.add_bind (m : Luna) (caller : CtxPtr) (cmd : Option String) :
    LuaReturn × Luna × CtxPtr :=
  match cmd with
  | none => (.ret 0, m, caller)
  | some cmd =>
    if m.luna_ctxs_.any (fun ctx => ctx.has_command_binding cmd) then
      (.lua_error ("conflicting bind " ++ cmd ++ " already exists"), m, caller)
    else
      match caller with
      | .null => (.ret 0, m, .null)
      | .active idx =>
        match m.luna_ctxs_[idx]? with
        | none => (.ret 0, m, .active idx)
        | some ctx =>
          (.ret 0, { m with luna_ctxs_ := m.luna_ctxs_.set idx (ctx.add_command_binding cmd) },
            .active idx)
      | .detached ctx => (.ret 0, m, .detached (ctx.add_command_binding cmd))

/-! ## `cleanup_exiting_contexts` (luna.cpp 333-342) -/

/-- The modulus of the 32-bit `unsigned` loop index. -/
def UINT_MOD : Nat := 4294967296

/-- The `for` loop of `cleanup_exiting_contexts`, one iteration per unit of
`fuel`: `i` is the `unsigned` index. A context that is not exiting is skipped
(`++i`); an exiting one is erased, `i` is decremented (wrapping to `2^32 - 1`
at 0) and then incremented by the loop header. The loop ends when
`i < luna_ctxs_.size()` fails; `none` means the fuel ran out first. -/
def cleanup_loop : Nat → Nat → List LunaContext → Option (List LunaContext)
  | 0, _, _ => none
  | fuel + 1, i, ctxs =>
    if h : i < ctxs.length then
      if !(ctxs[i]).exiting then
        cleanup_loop fuel ((i + 1) % UINT_MOD) ctxs
      else
        cleanup_loop fuel ((((i + UINT_MOD - 1) % UINT_MOD) + 1) % UINT_MOD) (ctxs.eraseIdx i)
    else some ctxs

/-- The method `Luna::cleanup_exiting_contexts`, run with the given fuel from `i = 0`. -/
def Luna.cleanup_exiting_contexts (m : Luna) (fuel : Nat) : Option Luna :=
  (cleanup_loop fuel 0 m.luna_ctxs_).map (fun ctxs => { m with luna_ctxs_ := ctxs })

/-! ## `list_available_modules` (luna.cpp 190-207) -/

/-- One entry of `fs::directory_iterator(modules_dir)`: its file name, whether
`fs::is_directory` holds for it and whether `fs::exists` holds for the entry's
path with `module.lua` appended. -/
structure DirEntry where
  filename : String
  is_directory : Bool
  has_module_lua : Bool
  deriving DecidableEq, Repr

/-- A line that `list_available_modules` writes with `LOG`. -/
inductive LogLine where
  | module_name (filename : String)
  | one_module_found
  | modules_found (num_modules : Nat)
  deriving DecidableEq, Repr

/-- The loop of `list_available_modules`: entries that are not directories are
skipped; for a directory `num_modules` is incremented, and then its name is
logged when `module.lua` exists in it. Returns the lines logged and the final
`num_modules`. -/
def list_loop : List DirEntry → Nat → List LogLine × Nat
  | [], num_modules => ([], num_modules)
  | p :: rest, num_modules =>
    if !p.is_directory then list_loop rest num_modules
    else
      let num_modules := num_modules + 1
      if p.has_module_lua then
        let r := list_loop rest num_modules
        (LogLine.module_name p.filename :: r.1, r.2)
      else list_loop rest num_modules

/-- The method `Luna::list_available_modules`: the lines of the loop followed by the
summary line built from `num_modules`. -/
def list_available_modules (entries : List DirEntry) : List LogLine :=
  let r := list_loop entries 0
  if r.2 = 1 then r.1 ++ [LogLine.one_module_found]
  else r.1 ++ [LogLine.modules_found r.2]

/-! ## Sequences of manager operations -/

/-- One call on the manager: `run_module` with what the filesystem and the
interpreter answer, `stop_module`, `pause_module`, or
`cleanup_exiting_contexts` with a fuel. -/
inductive Op where
  | run (sv : String) (load : ModuleLoad)
  | stop (sv : String)
  | pause (sv : String)
  | cleanup (fuel : Nat)
  deriving DecidableEq, Repr

/-- Perform one call; `none` when the sweep runs out of fuel. -/
def Luna.step (m : Luna) : Op → Option Luna
  | .run sv load => some (m.run_module sv load)
  | .stop sv => some (m.stop_module sv)
  | .pause sv => some (m.pause_module sv)
  | .cleanup fuel => m.cleanup_exiting_contexts fuel

/-- Perform a sequence of calls from left to right. -/
def Luna.exec (m : Luna) : List Op → Option Luna
  | [] => some m
  | op :: ops =>
    match m.step op with
    | none => none
    | some m' => m'.exec ops

/-- Whether a load passes every check that `run_module` makes after the name
lookup. -/
def ModuleLoad.succeeds (load : ModuleLoad) : Bool :=
  load.is_directory && load.is_regular_file && load.dofile_ok && load.istable
    && load.create_indices

/-! ## Sample values -/

/-- Entry-point handles used by the sample contexts. -/
def sample_threads : Threads := { main := 1, pulse := 2, event := 3, bind := 4 }

/-- A context with the given name, flags and command bindings. -/
def sample_ctx (name : String) (paused exiting : Bool) (cmds : List String) : LunaContext :=
  { name := name, paused := paused, exiting := exiting, threads_ := sample_threads,
    command_bindings := cmds, event_bindings := [] }

/-- A manager holding the given contexts, with empty queues. -/
def sample_luna (ctxs : List LunaContext) : Luna :=
  { luna_ctxs_ := ctxs, todo_luna_cmds_ := [], todo_bind_commands_ := [], debug_ := false }

/-- Three active modules; `beta` is paused and owns the command `/assist`. -/
def three_modules : Luna :=
  sample_luna [sample_ctx "alpha" false false [], sample_ctx "beta" true false ["/assist"],
    sample_ctx "gamma" false false []]

/-- Two active modules without command bindings. -/
def two_modules : Luna :=
  sample_luna [sample_ctx "alpha" false false [], sample_ctx "beta" false false []]

/-- The manager `two_modules` after `alpha` has bound `/pull`. -/
def two_modules_bound : Luna :=
  sample_luna [sample_ctx "alpha" false false ["/pull"], sample_ctx "beta" false false []]

/-- Five active modules; those at indices 0, 1 and 3 are flagged exiting. -/
def five_modules : Luna :=
  sample_luna [sample_ctx "alpha" false true [], sample_ctx "beta" false true [],
    sample_ctx "gamma" false false [], sample_ctx "delta" true true [],
    sample_ctx "epsilon" true false []]

/-- A load in which every check passes. -/
def load_ok : ModuleLoad :=
  { is_directory := true, is_regular_file := true, dofile_ok := true, istable := true,
    create_indices := true, ls := sample_ctx "" false false [] }

/-- A load whose module directory does not exist. -/
def load_no_directory : ModuleLoad := { load_ok with is_directory := false }

/-- A load whose script does not return a table. -/
def load_no_table : ModuleLoad := { load_ok with istable := false }

/-- The context that `run_module "hunter"` has constructed and not yet appended,
before its entry script has bound anything. -/
def loading_hunter : LunaContext := sample_ctx "hunter" false false []

/-- The context `loading_hunter` with `/hail` in its command bindings. -/
def loading_hunter_bound : LunaContext := sample_ctx "hunter" false false ["/hail"]

/-- A modules root with the module `hunter`, the shared library directory `lib`
(no `module.lua`) and a plain file. -/
def sample_root : List DirEntry :=
  [{ filename := "hunter", is_directory := true, has_module_lua := true },
   { filename := "lib", is_directory := true, has_module_lua := false },
   { filename := "readme.txt", is_directory := false, has_module_lua := false }]

/-- A sequence of calls: two loads, a failed load, a repeated load, a pause, a
sweep and a stop. -/
def sample_ops : List Op :=
  [Op.run "alpha" load_ok, Op.run "beta" load_ok, Op.run "gamma" load_no_table,
   Op.run "alpha" load_ok, Op.pause "beta", Op.cleanup 3, Op.stop "alpha"]

/-! ## Auxiliary facts about lists and `find_index_of` -/

theorem getElem?_append_cons_length (pre : List LunaContext) (c : LunaContext)
    (post : List LunaContext) : (pre ++ c :: post)[pre.length]? = some c := by
  induction pre with
  | nil => simp
  | cons a pre ih => simpa using ih

theorem eraseIdx_append_cons_length (pre : List LunaContext) (c : LunaContext)
    (post : List LunaContext) : (pre ++ c :: post).eraseIdx pre.length = pre ++ post := by
  induction pre with
  | nil => simp
  | cons a pre ih => simp [ih]

theorem set_append_cons_length (pre : List LunaContext) (c d : LunaContext)
    (post : List LunaContext) : (pre ++ c :: post).set pre.length d = pre ++ d :: post := by
  induction pre with
  | nil => simp
  | cons a pre ih => simp [ih]

/-- When no context of the list has the name, the loop returns `-1`. -/
theorem find_index_of_loop_absent (n : String) :
    ∀ (l : List LunaContext) (k : Int), (∀ c ∈ l, c.name ≠ n) →
      find_index_of_loop n l k = -1 := by
  intro l
  induction l with
  | nil => intro k _; rfl
  | cons a l ih =>
    intro k h
    have ha : a.name ≠ n := h a (List.mem_cons_self _ _)
    simp only [find_index_of_loop, if_neg ha]
    exact ih (k + 1) (fun c hc => h c (List.mem_cons_of_mem _ hc))

/-- At the first context with the name, the loop returns the start value plus
the number of contexts before it. -/
theorem find_index_of_loop_first (n : String) (c : LunaContext) (post : List LunaContext)
    (hc : c.name = n) :
    ∀ (pre : List LunaContext) (k : Int), (∀ d ∈ pre, d.name ≠ n) →
      find_index_of_loop n (pre ++ c :: post) k = k + pre.length := by
  intro pre
  induction pre with
  | nil => intro k _; simp [find_index_of_loop, hc]
  | cons a pre ih =>
    intro k h
    have ha : a.name ≠ n := h a (List.mem_cons_self _ _)
    have step : find_index_of_loop n (a :: pre ++ c :: post) k
        = find_index_of_loop n (pre ++ c :: post) (k + 1) := by
      show find_index_of_loop n (a :: (pre ++ c :: post)) k = _
      simp only [find_index_of_loop, if_neg ha]
    rw [step, ih (k + 1) (fun d hd => h d (List.mem_cons_of_mem _ hd))]
    simp only [List.length_cons]
    push_cast
    ring

/-- A list either has no context with the name, or splits at the first one. -/
theorem split_at_first (n : String) :
    ∀ (l : List LunaContext), (∀ c ∈ l, c.name ≠ n) ∨
      ∃ pre c post, l = pre ++ c :: post ∧ c.name = n ∧ ∀ d ∈ pre, d.name ≠ n := by
  intro l
  induction l with
  | nil => left; intro c hc; cases hc
  | cons a l ih =>
    by_cases ha : a.name = n
    · right
      exact ⟨[], a, l, rfl, ha, fun d hd => by cases hd⟩
    · rcases ih with h | ⟨pre, c, post, hl, hc, hpre⟩
      · left
        intro c hc
        rcases List.mem_cons.mp hc with rfl | hc
        · exact ha
        · exact h c hc
      · right
        refine ⟨a :: pre, c, post, by rw [hl]; rfl, hc, ?_⟩
        intro d hd
        rcases List.mem_cons.mp hd with rfl | hd
        · exact ha
        · exact hpre d hd

/-- The value of `find_index_of`: `-1` when the name is absent, else the
position of the first context with the name. -/
theorem find_index_of_cases (m : Luna) (n : String) :
    ((∀ c ∈ m.luna_ctxs_, c.name ≠ n) ∧ m.find_index_of n = -1) ∨
      ∃ pre c post, m.luna_ctxs_ = pre ++ c :: post ∧ c.name = n ∧
        (∀ d ∈ pre, d.name ≠ n) ∧ m.find_index_of n = (pre.length : Int) := by
  rcases split_at_first n m.luna_ctxs_ with h | ⟨pre, c, post, hl, hc, hpre⟩
  · left
    exact ⟨h, find_index_of_loop_absent n _ 0 h⟩
  · right
    refine ⟨pre, c, post, hl, hc, hpre, ?_⟩
    unfold Luna.find_index_of
    rw [hl, find_index_of_loop_first n c post hc pre 0 hpre]
    simp

theorem not_mem_names_iff (m : Luna) (n : String) :
    n ∉ m.names ↔ ∀ c ∈ m.luna_ctxs_, c.name ≠ n := by
  unfold Luna.names
  simp only [List.mem_map, not_exists, not_and]

/-- The lookup `find_index_of` fails exactly on the names that are not active. -/
theorem find_index_of_eq_neg_one_iff (m : Luna) (n : String) :
    m.find_index_of n = -1 ↔ n ∉ m.names := by
  rw [not_mem_names_iff]
  rcases find_index_of_cases m n with ⟨h, hi⟩ | ⟨pre, c, post, hl, hc, _, hi⟩
  · exact ⟨fun _ => h, fun _ => hi⟩
  · constructor
    · intro h
      rw [hi] at h
      omega
    · intro h
      exact absurd hc (h c (by rw [hl]; simp))

/-- What `stop_module` does for a name other than `"all"`: nothing when the name
is absent, else it erases the first context with the name. -/
theorem stop_module_cases (m : Luna) (n : String) (hn : n ≠ "all") :
    ((∀ c ∈ m.luna_ctxs_, c.name ≠ n) ∧ m.stop_module n = m) ∨
      ∃ pre c post, m.luna_ctxs_ = pre ++ c :: post ∧ c.name = n ∧
        (∀ d ∈ pre, d.name ≠ n) ∧
        m.stop_module n = { m with luna_ctxs_ := pre ++ post } := by
  rcases find_index_of_cases m n with ⟨h, hi⟩ | ⟨pre, c, post, hl, hc, hpre, hi⟩
  · left
    refine ⟨h, ?_⟩
    simp [Luna.stop_module, hn, hi]
  · right
    refine ⟨pre, c, post, hl, hc, hpre, ?_⟩
    have hne : (pre.length : Int) ≠ -1 := by omega
    simp only [Luna.stop_module, if_neg hn, hi, if_neg hne, Int.toNat_ofNat]
    rw [hl, eraseIdx_append_cons_length]

/-- What `pause_module` does: nothing when the name is absent, else it negates
the `paused` flag of the first context with the name. -/
theorem pause_module_cases (m : Luna) (n : String) :
    ((∀ c ∈ m.luna_ctxs_, c.name ≠ n) ∧ m.pause_module n = m) ∨
      ∃ pre c post, m.luna_ctxs_ = pre ++ c :: post ∧ c.name = n ∧
        (∀ d ∈ pre, d.name ≠ n) ∧
        m.pause_module n =
          { m with luna_ctxs_ := pre ++ { c with paused := !c.paused } :: post } := by
  rcases find_index_of_cases m n with ⟨h, hi⟩ | ⟨pre, c, post, hl, hc, hpre, hi⟩
  · left
    refine ⟨h, ?_⟩
    simp [Luna.pause_module, hi]
  · right
    refine ⟨pre, c, post, hl, hc, hpre, ?_⟩
    have hne : (pre.length : Int) ≠ -1 := by omega
    have hget : m.luna_ctxs_[pre.length]? = some c := by
      rw [hl]; exact getElem?_append_cons_length pre c post
    simp only [Luna.pause_module, hi, if_neg hne, Int.toNat_ofNat, hget]
    cases hp : c.paused <;> simp [hl, set_append_cons_length]

/-- What `run_module` does: nothing when the name is active or a load check
fails, else it appends the context constructed with the name. -/
theorem run_module_cases (m : Luna) (n : String) (load : ModuleLoad) :
    m.run_module n load =
      if n ∈ m.names ∨ load.succeeds = false then m
      else { m with luna_ctxs_ := m.luna_ctxs_ ++ [{ load.ls with name := n }] } := by
  by_cases hmem : n ∈ m.names
  · have hi : m.find_index_of n ≠ -1 := by
      rw [Ne, find_index_of_eq_neg_one_iff]; exact not_not.mpr hmem
    simp [Luna.run_module, hi, hmem]
  · have hi : m.find_index_of n = -1 := (find_index_of_eq_neg_one_iff m n).mpr hmem
    simp only [Luna.run_module, hi, ModuleLoad.succeeds, hmem]
    cases load.is_directory <;> cases load.is_regular_file <;> cases load.dofile_ok <;>
      cases load.istable <;> cases load.create_indices <;> simp

/-! ## Properties of the lifecycle operations -/

/-- C4: `stop_module "all"` leaves an empty active-context list, whatever the
list held before (any length, any names, any flags), and changes nothing else
of the manager. -/
theorem stop_module_all_clears (m : Luna) :
    (m.stop_module "all").luna_ctxs_ = [] ∧
      m.stop_module "all" = { m with luna_ctxs_ := [] } := by
  simp [Luna.stop_module]

/-- C5: two consecutive `pause_module n` calls give back the manager they
started from. When `n` is not active a call changes nothing; when it is, a call
changes only the `paused` flag of the first context named `n`, which it negates,
and the name, flags, handles and bindings of every context, and the order of
the list, are otherwise kept. -/
theorem pause_module_twice (m : Luna) (n : String) :
    (m.pause_module n).pause_module n = m ∧
      (n ∉ m.names → m.pause_module n = m) ∧
      (n ∈ m.names → ∃ pre c post, m.luna_ctxs_ = pre ++ c :: post ∧ c.name = n ∧
        (∀ d ∈ pre, d.name ≠ n) ∧
        m.pause_module n =
          { m with luna_ctxs_ := pre ++ { c with paused := !c.paused } :: post }) := by
  refine ⟨?_, ?_, ?_⟩
  · rcases pause_module_cases m n with ⟨_, h⟩ | ⟨pre, c, post, hl, hc, hpre, h⟩
    · rw [h, h]
    · rw [h]
      rcases pause_module_cases
          { m with luna_ctxs_ := pre ++ { c with paused := !c.paused } :: post } n with
        ⟨h2, _⟩ | ⟨pre2, c2, post2, hl2, hc2, hpre2, h2⟩
      · exact absurd hc (h2 { c with paused := !c.paused } (by simp))
      · rw [h2]
        have hl2' : pre ++ { c with paused := !c.paused } :: post = pre2 ++ c2 :: post2 := hl2
        have hlen : pre.length = pre2.length := by
          rcases Nat.lt_trichotomy pre.length pre2.length with hlt | heq | hgt
          · exfalso
            have hmem : ({ c with paused := !c.paused } : LunaContext) ∈ pre2 := by
              have := congrArg (fun l => l[pre.length]?) hl2'
              simp only [getElem?_append_cons_length] at this
              rw [List.getElem?_append_left hlt] at this
              exact List.getElem?_mem this.symm
            exact hpre2 _ hmem hc
          · exact heq
          · exfalso
            have hmem : c2 ∈ pre := by
              have := congrArg (fun l => l[pre2.length]?) hl2'
              simp only [getElem?_append_cons_length] at this
              rw [List.getElem?_append_left hgt] at this
              exact List.getElem?_mem this
            exact hpre c2 hmem hc2
        have hsplit := List.append_inj hl2' hlen
        have hpre_eq : pre = pre2 := hsplit.1
        have hc2_eq : c2 = { c with paused := !c.paused } := (List.cons.inj hsplit.2).1.symm
        have hpost_eq : post = post2 := (List.cons.inj hsplit.2).2
        subst hpre_eq hpost_eq hc2_eq
        cases m
        cases c
        simp_all
  · intro hn
    rcases pause_module_cases m n with ⟨_, h⟩ | ⟨pre, c, post, hl, hc, _, _⟩
    · exact h
    · exact absurd hc ((not_mem_names_iff m n).mp hn c (by rw [hl]; simp))
  · intro hn
    rcases pause_module_cases m n with ⟨h, _⟩ | ⟨pre, c, post, hl, hc, hpre, h⟩
    · exact absurd hn ((not_mem_names_iff m n).mpr h)
    · exact ⟨pre, c, post, hl, hc, hpre, h⟩

/-- C7: for a name `n` other than `"all"`, `stop_module n` leaves the manager
unchanged when no active context is named `n`; otherwise it removes the first
context named `n` and nothing else: the list is the old one without that
element, the others unchanged and in their order, one shorter, and, the active
names being pairwise distinct (the data model's name uniqueness), no context
named `n` remains. -/
theorem stop_module_removes_exactly (m : Luna) (n : String) (hn : n ≠ "all") :
    (n ∉ m.names → m.stop_module n = m) ∧
      (n ∈ m.names → ∃ pre c post, m.luna_ctxs_ = pre ++ c :: post ∧ c.name = n ∧
        (∀ d ∈ pre, d.name ≠ n) ∧
        m.stop_module n = { m with luna_ctxs_ := pre ++ post } ∧
        (m.stop_module n).luna_ctxs_.length + 1 = m.luna_ctxs_.length ∧
        (m.names.Nodup → n ∉ (m.stop_module n).names)) := by
  refine ⟨?_, ?_⟩
  · intro habs
    rcases stop_module_cases m n hn with ⟨_, h⟩ | ⟨pre, c, post, hl, hc, _, _⟩
    · exact h
    · exact absurd hc ((not_mem_names_iff m n).mp habs c (by rw [hl]; simp))
  · intro hmem
    rcases stop_module_cases m n hn with ⟨h, _⟩ | ⟨pre, c, post, hl, hc, hpre, h⟩
    · exact absurd hmem ((not_mem_names_iff m n).mpr h)
    · refine ⟨pre, c, post, hl, hc, hpre, h, ?_, ?_⟩
      · rw [h, hl]; simp; omega
      · intro hnd
        rw [h, not_mem_names_iff]
        intro d hd
        rcases List.mem_append.mp hd with hd | hd
        · exact hpre d hd
        · intro hdn
          have hnd' : (pre.map LunaContext.name ++ c.name :: post.map LunaContext.name).Nodup := by
            have := hnd
            unfold Luna.names at this
            rw [hl] at this
            simpa using this
          have := (List.nodup_cons.mp (List.nodup_append.mp hnd').2.1).1
          apply this
          rw [hc, ← hdn]
          exact List.mem_map_of_mem _ hd

/-- C6: for a name `n` that is not active, a `run_module n` call in which any
of the five checks fails (module directory, `module.lua`, running the script,
the table check, `create_indices`) leaves the manager as it was; when all five
pass, the only change is that the context constructed with name `n` is appended
at the end of the list. So the list changes only if all five pass. -/
theorem run_module_load_error_frame (m : Luna) (n : String) (load : ModuleLoad)
    (hn : n ∉ m.names) :
    ((load.is_directory = false ∨ load.is_regular_file = false ∨ load.dofile_ok = false ∨
        load.istable = false ∨ load.create_indices = false) → m.run_module n load = m) ∧
      ((load.is_directory = true ∧ load.is_regular_file = true ∧ load.dofile_ok = true ∧
        load.istable = true ∧ load.create_indices = true) →
        m.run_module n load =
          { m with luna_ctxs_ := m.luna_ctxs_ ++ [{ load.ls with name := n }] }) ∧
      ((m.run_module n load).luna_ctxs_ ≠ m.luna_ctxs_ →
        (load.is_directory = true ∧ load.is_regular_file = true ∧ load.dofile_ok = true ∧
          load.istable = true ∧ load.create_indices = true)) := by
  rw [run_module_cases]
  simp only [hn, false_or, ModuleLoad.succeeds]
  cases load.is_directory <;> cases load.is_regular_file <;> cases load.dofile_ok <;>
    cases load.istable <;> cases load.create_indices <;> simp

/-- C3 (amended): from a manager whose active names are pairwise distinct, if
`n` is already active or the first `run_module n` passes all its load checks,
then after two successive `run_module n` calls exactly one active context is
named `n`: the second call finds `n` through `find_index_of` and leaves the
manager equal to the one after the first call, whatever its own load answers. -/
theorem run_module_twice (m : Luna) (n : String) (l1 l2 : ModuleLoad)
    (hnd : m.names.Nodup) (h1 : n ∈ m.names ∨ l1.succeeds = true) :
    ((m.run_module n l1).run_module n l2).names.count n = 1 ∧
      (m.run_module n l1).find_index_of n ≠ -1 ∧
      (m.run_module n l1).run_module n l2 = m.run_module n l1 := by
  have hnames : (m.run_module n l1).names = if n ∈ m.names then m.names else m.names ++ [n] := by
    rw [run_module_cases]
    by_cases hmem : n ∈ m.names
    · rw [if_pos (Or.inl hmem), if_pos hmem]
    · have hs : l1.succeeds = true := h1.resolve_left hmem
      rw [if_neg (by simp [hmem, hs]), if_neg hmem]
      simp [Luna.names]
  have hmem1 : n ∈ (m.run_module n l1).names := by
    rw [hnames]
    by_cases hmem : n ∈ m.names
    · rw [if_pos hmem]; exact hmem
    · rw [if_neg hmem]; simp
  have hnd1 : (m.run_module n l1).names.Nodup := by
    rw [hnames]
    by_cases hmem : n ∈ m.names
    · rw [if_pos hmem]; exact hnd
    · rw [if_neg hmem, List.nodup_append]
      refine ⟨hnd, List.nodup_singleton _, ?_⟩
      intro a ha hb
      rw [List.mem_singleton] at hb
      subst hb
      exact hmem ha
  have h2 : (m.run_module n l1).run_module n l2 = m.run_module n l1 := by
    rw [run_module_cases (m.run_module n l1)]
    simp [hmem1]
  refine ⟨?_, ?_, h2⟩
  · rw [h2]
    exact List.count_eq_one_of_mem hnd1 hmem1
  · rw [Ne, find_index_of_eq_neg_one_iff]
    exact not_not.mpr hmem1

/-! ## The sweep of exiting contexts -/

/-- The loop started at index `pre.length` on `pre ++ rest` keeps `pre` and the
contexts of `rest` that are not exiting, provided the list is shorter than
`2^32` and the fuel exceeds the number of contexts still to visit. -/
theorem cleanup_loop_from (rest : List LunaContext) :
    ∀ (pre : List LunaContext) (fuel : Nat), (pre ++ rest).length < UINT_MOD →
      rest.length < fuel →
      cleanup_loop fuel pre.length (pre ++ rest)
        = some (pre ++ rest.filter (fun c => !c.exiting)) := by
  induction rest with
  | nil =>
    intro pre fuel _ hfuel
    obtain ⟨f, rfl⟩ : ∃ f, fuel = f + 1 := ⟨fuel - 1, by simp at hfuel; omega⟩
    simp [cleanup_loop]
  | cons c r ih =>
    intro pre fuel hsize hfuel
    obtain ⟨f, rfl⟩ : ∃ f, fuel = f + 1 := ⟨fuel - 1, by omega⟩
    have hlt : pre.length < (pre ++ c :: r).length := by simp
    have hget : (pre ++ c :: r)[pre.length] = c := by
      have h := getElem?_append_cons_length pre c r
      rw [List.getElem?_eq_getElem hlt] at h
      exact Option.some.inj h
    have hlen : (pre ++ c :: r).length = pre.length + r.length + 1 := by simp; omega
    have hf : r.length < f := by simp at hfuel; omega
    rw [cleanup_loop, dif_pos hlt, hget]
    cases hex : c.exiting
    · have hidx : (pre.length + 1) % UINT_MOD = (pre ++ [c]).length := by
        rw [hlen] at hsize
        simp only [UINT_MOD] at hsize ⊢
        simp only [List.length_append, List.length_singleton]
        omega
      have hl : pre ++ c :: r = (pre ++ [c]) ++ r := by simp
      simp only [Bool.not_false, if_true]
      rw [hidx, hl, ih (pre ++ [c]) f (by rw [← hl]; exact hsize) hf]
      simp [List.filter_cons, hex]
    · have hidx : (((pre.length + UINT_MOD - 1) % UINT_MOD) + 1) % UINT_MOD = pre.length := by
        rw [hlen] at hsize
        simp only [UINT_MOD] at hsize ⊢
        omega
      simp only [Bool.not_true, Bool.false_eq_true, if_false]
      rw [hidx, eraseIdx_append_cons_length,
        ih pre f (by rw [hlen] at hsize; simp only [List.length_append]; omega) hf]
      simp [List.filter_cons, hex]

/-- Whatever the fuel and the start index, a result of the loop is the input
with some contexts removed, the others in their order. -/
theorem cleanup_loop_sublist :
    ∀ (fuel i : Nat) (ctxs r : List LunaContext),
      cleanup_loop fuel i ctxs = some r → r.Sublist ctxs := by
  intro fuel
  induction fuel with
  | zero => intro i ctxs r h; simp [cleanup_loop] at h
  | succ f ih =>
    intro i ctxs r h
    rw [cleanup_loop] at h
    by_cases hlt : i < ctxs.length
    · rw [dif_pos hlt] at h
      by_cases hex : (!(ctxs[i]).exiting) = true
      · rw [if_pos hex] at h
        exact ih _ _ _ h
      · rw [if_neg hex] at h
        exact (ih _ _ _ h).trans (List.eraseIdx_sublist ctxs i)
    · rw [dif_neg hlt] at h
      rw [← Option.some.inj h]

/-- C2: on an active list shorter than `2^32` (the range of the 32-bit loop
index), `cleanup_exiting_contexts` terminates, at the latest after one
iteration more than the list is long, and leaves exactly the contexts whose
`exiting` flag is false, in their original order: the input filtered by
`not exiting`, wherever the flagged contexts stand (index 0 and consecutive
runs included). -/
theorem cleanup_exiting_contexts_filter (m : Luna) (fuel : Nat)
    (hsize : m.luna_ctxs_.length < 2 ^ 32) (hfuel : m.luna_ctxs_.length < fuel) :
    m.cleanup_exiting_contexts fuel
      = some { m with luna_ctxs_ := m.luna_ctxs_.filter (fun c => !c.exiting) } := by
  have h := cleanup_loop_from m.luna_ctxs_ [] fuel (by simpa [UINT_MOD] using hsize) hfuel
  simp only [List.length_nil, List.nil_append] at h
  simp [Luna.cleanup_exiting_contexts, h]

/-! ## The invariant of the active list -/

/-- One call keeps the active names pairwise distinct, and either appends the
context that a `run_module` call constructed or leaves a subsequence of the
names. -/
theorem step_preserves (m m' : Luna) (op : Op) (hnd : m.names.Nodup)
    (hstep : m.step op = some m') :
    m'.names.Nodup ∧
      ((∃ sv load, op = Op.run sv load ∧
          m'.luna_ctxs_ = m.luna_ctxs_ ++ [{ load.ls with name := sv }]) ∨
        m'.names.Sublist m.names) := by
  cases op with
  | run sv load =>
    have hm : m' = m.run_module sv load := (Option.some.inj hstep).symm
    subst hm
    rw [run_module_cases]
    by_cases hc : sv ∈ m.names ∨ load.succeeds = false
    · rw [if_pos hc]
      exact ⟨hnd, Or.inr (List.Sublist.refl _)⟩
    · rw [if_neg hc]
      refine ⟨?_, Or.inl ⟨sv, load, rfl, rfl⟩⟩
      have hnot : sv ∉ m.names := fun h => hc (Or.inl h)
      simp only [Luna.names, List.map_append, List.map_cons, List.map_nil]
      rw [List.nodup_append]
      refine ⟨hnd, List.nodup_singleton _, ?_⟩
      intro a ha hb
      rw [List.mem_singleton] at hb
      subst hb
      exact hnot ha
  | stop sv =>
    have hm : m' = m.stop_module sv := (Option.some.inj hstep).symm
    subst hm
    have hsub : (m.stop_module sv).names.Sublist m.names := by
      by_cases hall : sv = "all"
      · simp [Luna.stop_module, hall, Luna.names]
      · rcases stop_module_cases m sv hall with ⟨_, h⟩ | ⟨pre, c, post, hl, _, _, h⟩
        · rw [h]
        · rw [h]
          simp only [Luna.names, hl, List.map_append, List.map_cons]
          exact List.Sublist.append (List.Sublist.refl _) (List.sublist_cons_self _ _)
    exact ⟨hnd.sublist hsub, Or.inr hsub⟩
  | pause sv =>
    have hm : m' = m.pause_module sv := (Option.some.inj hstep).symm
    subst hm
    have heq : (m.pause_module sv).names = m.names := by
      rcases pause_module_cases m sv with ⟨_, h⟩ | ⟨pre, c, post, hl, _, _, h⟩
      · rw [h]
      · rw [h]
        simp [Luna.names, hl]
    rw [heq]
    exact ⟨hnd, Or.inr (List.Sublist.refl _)⟩
  | cleanup fuel =>
    simp only [Luna.step, Luna.cleanup_exiting_contexts, Option.map_eq_some'] at hstep
    obtain ⟨r, hr, hm⟩ := hstep
    subst hm
    have hsub : (List.map LunaContext.name r).Sublist m.names :=
      (cleanup_loop_sublist fuel 0 m.luna_ctxs_ r hr).map _
    exact ⟨hnd.sublist hsub, Or.inr hsub⟩

/-- Every sequence of calls keeps the active names pairwise distinct. -/
theorem exec_preserves_nodup :
    ∀ (ops : List Op) (m m' : Luna), m.names.Nodup → m.exec ops = some m' → m'.names.Nodup := by
  intro ops
  induction ops with
  | nil =>
    intro m m' hnd h
    rw [← Option.some.inj h]
    exact hnd
  | cons op ops ih =>
    intro m m' hnd h
    rw [Luna.exec] at h
    cases hs : m.step op with
    | none => rw [hs] at h; cases h
    | some m1 =>
      rw [hs] at h
      exact ih m1 m' (step_preserves m m1 op hnd hs).1 h

/-- C8: from a manager with no active context, after any finite sequence of
`run_module`, `stop_module`, `pause_module` and `cleanup_exiting_contexts`
calls, with any arguments and load answers, the active names are pairwise
distinct; and the list stays in load order, in that any further call either
appends the context that `run_module` constructed at the end, or leaves the
names a subsequence of what they were (nothing is reordered). -/
theorem names_unique_invariant (m0 : Luna) (ops : List Op) (m : Luna)
    (h0 : m0.luna_ctxs_ = []) (hexec : m0.exec ops = some m) :
    m.names.Nodup ∧
      ∀ (op : Op) (m' : Luna), m.step op = some m' →
        m'.names.Nodup ∧
          ((∃ sv load, op = Op.run sv load ∧
              m'.luna_ctxs_ = m.luna_ctxs_ ++ [{ load.ls with name := sv }]) ∨
            m'.names.Sublist m.names) := by
  have hnd0 : m0.names.Nodup := by simp [Luna.names, h0]
  have hnd : m.names.Nodup := exec_preserves_nodup ops m0 m hnd0 hexec
  exact ⟨hnd, fun op m' hstep => step_preserves m m' op hnd hstep⟩

/-! ## Command bindings -/

/-- A context has the binding it has just added. -/
theorem has_command_binding_add (ctx : LunaContext) (cmd : String) :
    (ctx.add_command_binding cmd).has_command_binding cmd = true := by
  unfold LunaContext.has_command_binding LunaContext.add_command_binding
  by_cases h : cmd ∈ ctx.command_bindings <;> simp [h]

/-- When the scan of `luna_ctxs_` finds the binding, `add_bind` raises the
conflict error and changes nothing. -/
theorem add_bind_of_scan_hit (m : Luna) (caller : CtxPtr) (cmd : String)
    (h : m.luna_ctxs_.any (fun ctx => ctx.has_command_binding cmd) = true) :
    m.add_bind caller (some cmd)
      = (LuaReturn.lua_error ("conflicting bind " ++ cmd ++ " already exists"), m, caller) := by
  simp only [Luna.add_bind, h, if_true]

/-- When `add_bind` returns 0 for a caller stored in `luna_ctxs_`, the scan
found nothing and the caller's context, in place, has added the binding. -/
theorem add_bind_active_ret (m m1 : Luna) (i : Nat) (cmd : String) (p : CtxPtr)
    (hi : i < m.luna_ctxs_.length)
    (hreg : m.add_bind (CtxPtr.active i) (some cmd) = (LuaReturn.ret 0, m1, p)) :
    m.luna_ctxs_.any (fun ctx => ctx.has_command_binding cmd) = false ∧
      ∃ A0, m.luna_ctxs_[i]? = some A0 ∧
        m1 = { m with luna_ctxs_ := m.luna_ctxs_.set i (A0.add_command_binding cmd) } := by
  cases hany : m.luna_ctxs_.any (fun ctx => ctx.has_command_binding cmd)
  · refine ⟨rfl, m.luna_ctxs_[i], List.getElem?_eq_getElem hi, ?_⟩
    simp only [Luna.add_bind, hany, Bool.false_eq_true, if_false,
      List.getElem?_eq_getElem hi] at hreg
    exact (Prod.mk.inj (Prod.mk.inj hreg).2).1.symm
  · rw [add_bind_of_scan_hit m _ cmd hany] at hreg
    cases (Prod.mk.inj hreg).1

/-- After a registration that returned 0 for the caller at index `i`, exactly
the context at index `i` has the binding. -/
theorem binding_owner_after_add (m m1 : Luna) (i : Nat) (cmd : String) (p : CtxPtr)
    (hi : i < m.luna_ctxs_.length)
    (hreg : m.add_bind (CtxPtr.active i) (some cmd) = (LuaReturn.ret 0, m1, p)) :
    ∀ (k : Nat) (X : LunaContext), m1.luna_ctxs_[k]? = some X →
      (X.has_command_binding cmd = true ↔ k = i) := by
  obtain ⟨hany, A0, _, hm1⟩ := add_bind_active_ret m m1 i cmd p hi hreg
  intro k X hk
  subst hm1
  simp only [List.getElem?_set] at hk
  by_cases hki : i = k
  · subst hki
    simp only [if_true, hi] at hk
    rw [← Option.some.inj hk]
    simp [has_command_binding_add]
  · rw [if_neg hki] at hk
    have hX : X ∈ m.luna_ctxs_ := List.getElem?_mem hk
    have hfalse : X.has_command_binding cmd = false := by
      rw [List.any_eq_false] at hany
      simpa using hany X hX
    rw [hfalse]
    constructor
    · intro h; cases h
    · intro h; exact absurd h.symm hki

/-- C1: with two distinct active contexts at indices `a` and `b`, once
`add_bind` requested by the context at `a` has returned 0 for command `c`
(so that `c` is recorded in that context's command bindings), a registration of
the same `c` requested by the context at `b` raises the conflict error and
leaves the manager as it was, so the bindings of the context at `b` are
unchanged and do not hold `c`, and the context at `a` is the only active
context for which `has_command_binding c` is true. -/
theorem add_bind_conflict (m m1 : Luna) (a b : Nat) (c : String) (p : CtxPtr)
    (ha : a < m.luna_ctxs_.length) (hb : b < m.luna_ctxs_.length) (hab : a ≠ b)
    (hreg : m.add_bind (CtxPtr.active a) (some c) = (LuaReturn.ret 0, m1, p)) :
    (∃ A, m1.luna_ctxs_[a]? = some A ∧ A.has_command_binding c = true) ∧
      m1.add_bind (CtxPtr.active b) (some c)
        = (LuaReturn.lua_error ("conflicting bind " ++ c ++ " already exists"), m1,
            CtxPtr.active b) ∧
      (∃ B, m.luna_ctxs_[b]? = some B ∧ m1.luna_ctxs_[b]? = some B ∧
        B.has_command_binding c = false) ∧
      (∀ (k : Nat) (X : LunaContext), m1.luna_ctxs_[k]? = some X →
        (X.has_command_binding c = true ↔ k = a)) := by
  have howner := binding_owner_after_add m m1 a c p ha hreg
  obtain ⟨_, A0, hA0, hm1⟩ := add_bind_active_ret m m1 a c p ha hreg
  have hgetA : m1.luna_ctxs_[a]? = some (A0.add_command_binding c) := by
    subst hm1
    simp [List.getElem?_set, ha]
  have hgetB : m1.luna_ctxs_[b]? = m.luna_ctxs_[b]? := by
    subst hm1
    simp [List.getElem?_set, hab]
  have hB : m.luna_ctxs_[b]? = some (m.luna_ctxs_[b]) := List.getElem?_eq_getElem hb
  refine ⟨⟨_, hgetA, has_command_binding_add A0 c⟩, ?_, ⟨m.luna_ctxs_[b], hB, ?_, ?_⟩, howner⟩
  · apply add_bind_of_scan_hit
    rw [List.any_eq_true]
    exact ⟨_, List.getElem?_mem hgetA, has_command_binding_add A0 c⟩
  · rw [hgetB, hB]
  · have h := howner b (m.luna_ctxs_[b]) (by rw [hgetB, hB])
    cases hv : (m.luna_ctxs_[b]).has_command_binding c
    · rfl
    · exact absurd (h.mp hv).symm hab

/-- C9 (amended): for a requesting context that is in the active list, once
`add_bind` requested by it has returned 0 for command `c` (so that `c` is
recorded in its command bindings), a second registration of `c` requested by
the same context raises the conflict error and leaves the manager as it was:
the scan covers the requester's own bindings when the requester is in
`luna_ctxs_`. -/
theorem add_bind_self_conflict_active (m m1 : Luna) (i : Nat) (c : String) (p : CtxPtr)
    (hi : i < m.luna_ctxs_.length)
    (hreg : m.add_bind (CtxPtr.active i) (some c) = (LuaReturn.ret 0, m1, p)) :
    (∃ X, m1.luna_ctxs_[i]? = some X ∧ X.has_command_binding c = true) ∧
      m1.add_bind (CtxPtr.active i) (some c)
        = (LuaReturn.lua_error ("conflicting bind " ++ c ++ " already exists"), m1,
            CtxPtr.active i) := by
  obtain ⟨_, A0, _, hm1⟩ := add_bind_active_ret m m1 i c p hi hreg
  have hget : m1.luna_ctxs_[i]? = some (A0.add_command_binding c) := by
    subst hm1
    simp [List.getElem?_set, hi]
  refine ⟨⟨_, hget, has_command_binding_add A0 c⟩, ?_⟩
  apply add_bind_of_scan_hit
  rw [List.any_eq_true]
  exact ⟨_, List.getElem?_mem hget, has_command_binding_add A0 c⟩

/-! ## `list_available_modules` -/

/-- The loop logs the names of exactly the directories that hold `module.lua`,
in directory order, and adds to `num_modules` the number of all directories. -/
theorem list_loop_spec :
    ∀ (entries : List DirEntry) (k : Nat),
      (list_loop entries k).1
          = (entries.filter (fun p => p.is_directory && p.has_module_lua)).map
              (fun p => LogLine.module_name p.filename) ∧
        (list_loop entries k).2 = k + (entries.filter (fun p => p.is_directory)).length := by
  intro entries
  induction entries with
  | nil => intro k; simp [list_loop]
  | cons p rest ih =>
    intro k
    cases hd : p.is_directory <;> cases hm : p.has_module_lua <;>
      simp [list_loop, hd, hm, ih] <;> omega

/-- C10: on a modules root holding the module directory `hunter` (with
`module.lua`), the directory `lib` (without `module.lua`) and a plain file,
`list_available_modules` prints the one name `hunter` and then announces two
modules: `num_modules` counts every directory, not only those that contain
`module.lua`. -/
theorem list_available_modules_counts_directories :
    list_available_modules sample_root
      = [LogLine.module_name "hunter", LogLine.modules_found 2] ∧
      (sample_root.filter (fun p => p.is_directory && p.has_module_lua)).length = 1 := by
  decide

/-! ## Instances on sample values -/

/-- C1 on `two_modules`: `alpha` binds `/pull`, then `beta` is refused. -/
theorem add_bind_conflict_witness :
    two_modules.add_bind (CtxPtr.active 0) (some "/pull")
        = (LuaReturn.ret 0, two_modules_bound, CtxPtr.active 0) ∧
      two_modules_bound.add_bind (CtxPtr.active 1) (some "/pull")
        = (LuaReturn.lua_error ("conflicting bind " ++ "/pull" ++ " already exists"),
            two_modules_bound, CtxPtr.active 1) :=
  ⟨by decide,
    (add_bind_conflict two_modules two_modules_bound 0 1 "/pull" (CtxPtr.active 0)
      (by decide) (by decide) (by decide) (by decide)).2.1⟩

/-- C2 on `five_modules`: the contexts at indices 0, 1 and 3 are swept. -/
theorem cleanup_exiting_contexts_filter_witness :
    five_modules.luna_ctxs_.length < 2 ^ 32 ∧ five_modules.luna_ctxs_.length < 6 ∧
      five_modules.cleanup_exiting_contexts 6
        = some { five_modules with
            luna_ctxs_ := five_modules.luna_ctxs_.filter (fun c => !c.exiting) } :=
  ⟨by decide, by decide, cleanup_exiting_contexts_filter five_modules 6 (by decide) (by decide)⟩

/-- C3 as stated fails: when the load fails both times, two `run_module "alpha"`
calls on the empty manager leave no context named `alpha`. -/
theorem run_module_twice_failed_load :
    ((Luna.empty.run_module "alpha" load_no_directory).run_module "alpha"
        load_no_directory).names.count "alpha" = 0 := by
  decide

/-- C3 (amended) on the empty manager with a load that passes. -/
theorem run_module_twice_witness :
    Luna.empty.names.Nodup ∧ load_ok.succeeds = true ∧
      ((Luna.empty.run_module "alpha" load_ok).run_module "alpha" load_ok).names.count "alpha"
        = 1 :=
  ⟨by decide, by decide,
    (run_module_twice Luna.empty "alpha" load_ok load_ok (by decide) (Or.inr (by decide))).1⟩

/-- C5 on `three_modules`: pausing `beta` twice, and pausing an unknown name. -/
theorem pause_module_twice_witness :
    (three_modules.pause_module "beta").pause_module "beta" = three_modules ∧
      "delta" ∉ three_modules.names ∧ three_modules.pause_module "delta" = three_modules :=
  ⟨(pause_module_twice three_modules "beta").1, by decide,
    (pause_module_twice three_modules "delta").2.1 (by decide)⟩

/-- C6 on `three_modules`: a script that returns no table adds nothing. -/
theorem run_module_load_error_frame_witness :
    "delta" ∉ three_modules.names ∧ load_no_table.istable = false ∧
      three_modules.run_module "delta" load_no_table = three_modules :=
  ⟨by decide, by decide,
    (run_module_load_error_frame three_modules "delta" load_no_table (by decide)).1
      (Or.inr (Or.inr (Or.inr (Or.inl (by decide)))))⟩

/-- C7 on `three_modules`: stopping `beta`. -/
theorem stop_module_removes_exactly_witness :
    "beta" ≠ "all" ∧ "beta" ∈ three_modules.names ∧ three_modules.names.Nodup ∧
      "beta" ∉ (three_modules.stop_module "beta").names ∧
      (three_modules.stop_module "beta").luna_ctxs_.length + 1
        = three_modules.luna_ctxs_.length := by
  obtain ⟨_, _, _, _, _, _, _, hlen, hno⟩ :=
    (stop_module_removes_exactly three_modules "beta" (by decide)).2 (by decide)
  exact ⟨by decide, by decide, by decide, hno (by decide), hlen⟩

/-- C8 on `sample_ops`: the calls run to a manager holding `beta` alone. -/
theorem names_unique_invariant_witness :
    Luna.empty.luna_ctxs_ = [] ∧
      Luna.empty.exec sample_ops
        = some (sample_luna [{ (sample_ctx "beta" true false []) with name := "beta" }]) ∧
      (sample_luna [{ (sample_ctx "beta" true false []) with name := "beta" }]).names.Nodup :=
  ⟨rfl, by decide,
    (names_unique_invariant Luna.empty sample_ops _ rfl (by decide)).1⟩

/-- C9 as stated fails: while `run_module` is still loading `hunter`, its
context is not in `luna_ctxs_`; the entry script binds `/hail`, which is
recorded, and a second bind of `/hail` by the same context returns 0 without a
conflict error. -/
theorem add_bind_loading_self_duplicate :
    Luna.empty.add_bind (CtxPtr.detached loading_hunter) (some "/hail")
        = (LuaReturn.ret 0, Luna.empty, CtxPtr.detached loading_hunter_bound) ∧
      loading_hunter_bound.has_command_binding "/hail" = true ∧
      Luna.empty.add_bind (CtxPtr.detached loading_hunter_bound) (some "/hail")
        = (LuaReturn.ret 0, Luna.empty, CtxPtr.detached loading_hunter_bound) := by
  decide

/-- C9 (amended) on `two_modules`: `alpha` binds `/pull` and is refused the
second time. -/
theorem add_bind_self_conflict_active_witness :
    two_modules.luna_ctxs_.length > 0 ∧
      two_modules_bound.add_bind (CtxPtr.active 0) (some "/pull")
        = (LuaReturn.lua_error ("conflicting bind " ++ "/pull" ++ " already exists"),
            two_modules_bound, CtxPtr.active 0) :=
  ⟨by decide,
    (add_bind_self_conflict_active two_modules two_modules_bound 0 "/pull" (CtxPtr.active 0)
      (by decide) (by decide)).2⟩

end MQ2Luna
